import Mathlib

/-!
# Verification of the WebIdlNapi marshalling core (`src/webidl-napi-inl.h`)

This file gives a shallow embedding of the conversion, overload-resolution,
wrapping/identity, promise and partial-property machinery of the repository
and proves the testable properties stated in the specification.

Modelling conventions:

* A dynamic (N-API) value is `NValue`; its numeric payload is an exact
  rational.  The host handle API (`napi_*` primitives) is external to the
  repository, so those primitives are modelled from the spec's boundary
  description (§6): creation stores the exact value, extraction succeeds
  exactly on a dynamic value of the matching runtime type and shape, and
  fails with a status otherwise.  Doubles are modelled as exact rationals
  (the converter code only delegates, it performs no floating-point
  arithmetic of its own).
* Fallible calls return `Except NStatus`; `STATUS_CALL`'s goto-fail
  short-circuiting is explicit `match`ing.
* A native `std::string` (`DOMString`) is its byte content, a `List Nat`
  with no implicit terminator; `c_str()` plus `NAPI_AUTO_LENGTH` reads up
  to the first zero byte.
-/

/-- N-API status codes used by the model (the subset the embedded code can
produce). -/
inductive NStatus where
  | invalid_arg
  | number_expected
  | string_expected
  | array_expected
  | object_expected
  | generic_failure
  | pending_exception
deriving DecidableEq, Repr

/-- Runtime type tags, as returned by `napi_typeof`. -/
inductive NType where
  | undefined
  | null
  | boolean
  | number
  | string
  | symbol
  | object
  | function
  | external
deriving DecidableEq, Repr

/-- A dynamic value handle.  `obj id` refers to an entry of the
environment's object heap (arrays, wrapped instances, plain objects). -/
inductive NValue where
  | undefined
  | nullv
  | boolean (b : Bool)
  | number (q : ℚ)
  | str (s : List Nat)
  | obj (id : Nat)
deriving DecidableEq, Repr

/-- `napi_typeof`, modelled from the spec's boundary description. -/
def typeofV : NValue → NType
  | .undefined => .undefined
  | .nullv => .null
  | .boolean _ => .boolean
  | .number _ => .number
  | .str _ => .string
  | .obj _ => .object

/-! ## Numeric handle-API primitives

Modelled from the spec: "primitive create/get-value for each numeric kind
and string" (§6); each create stores the exact value, each get succeeds on
a number of the matching integral shape and range and fails otherwise
(codecs are "total over native, partial over dynamic", §3). -/

def napi_create_uint32 (x : Nat) : NValue := .number (x : ℚ)

def napi_get_value_uint32 (v : NValue) : Except NStatus Nat :=
  match v with
  | .number q =>
      if q.den = 1 ∧ 0 ≤ q.num ∧ q.num < 2 ^ 32 then .ok q.num.toNat
      else .error .number_expected
  | _ => .error .number_expected

def napi_create_int32 (x : Int) : NValue := .number (x : ℚ)

def napi_get_value_int32 (v : NValue) : Except NStatus Int :=
  match v with
  | .number q =>
      if q.den = 1 ∧ -(2 ^ 31) ≤ q.num ∧ q.num < 2 ^ 31 then .ok q.num
      else .error .number_expected
  | _ => .error .number_expected

def napi_create_int64 (x : Int) : NValue := .number (x : ℚ)

def napi_get_value_int64 (v : NValue) : Except NStatus Int :=
  match v with
  | .number q =>
      if q.den = 1 ∧ -(2 ^ 63) ≤ q.num ∧ q.num < 2 ^ 63 then .ok q.num
      else .error .number_expected
  | _ => .error .number_expected

def napi_create_double (x : ℚ) : NValue := .number x

def napi_get_value_double (v : NValue) : Except NStatus ℚ :=
  match v with
  | .number q => .ok q
  | _ => .error .number_expected

/-! ## String handle-API primitives -/

/-- `napi_create_string_utf8` with `NAPI_AUTO_LENGTH`: the source bytes are
read through `c_str()` up to (excluding) the first zero byte. -/
def napi_create_string_utf8_auto (bytes : List Nat) : NValue :=
  .str (bytes.takeWhile (· ≠ 0))

/-- The length-query form `napi_get_value_string_utf8(env, str, nullptr, 0,
&size)`: yields the byte length of the string, excluding any terminator. -/
def napi_get_value_string_utf8_len (v : NValue) : Except NStatus Nat :=
  match v with
  | .str s => .ok s.length
  | _ => .error .string_expected

/-- The copying form of `napi_get_value_string_utf8`: writes
`min (bufsize - 1) length` bytes plus a zero terminator into the buffer,
leaves the rest of the buffer unchanged, and reports the number of bytes
copied (terminator excluded). -/
def napi_get_value_string_utf8_copy (v : NValue) (buf : List Nat)
    (bufsize : Nat) : Except NStatus (List Nat × Nat) :=
  match v with
  | .str s =>
      let copied := min (bufsize - 1) s.length
      .ok ((s.take copied ++ [0]) ++ buf.drop (copied + 1), copied)
  | _ => .error .string_expected

/-! ## `Converter<T>` specializations (from `src/webidl-napi-inl.h`) -/

/-- `Converter<uint32_t>::ToJS`. -/
def Converter.uint32.ToJS (value : Nat) : NValue := napi_create_uint32 value

/-- `Converter<uint32_t>::ToNative`. -/
def Converter.uint32.ToNative (value : NValue) : Except NStatus Nat :=
  napi_get_value_uint32 value

/-- `Converter<int32_t>::ToJS`. -/
def Converter.int32.ToJS (value : Int) : NValue := napi_create_int32 value

/-- `Converter<int32_t>::ToNative`. -/
def Converter.int32.ToNative (value : NValue) : Except NStatus Int :=
  napi_get_value_int32 value

/-- `Converter<int64_t>::ToJS`. -/
def Converter.int64.ToJS (value : Int) : NValue := napi_create_int64 value

/-- `Converter<int64_t>::ToNative`. -/
def Converter.int64.ToNative (value : NValue) : Except NStatus Int :=
  napi_get_value_int64 value

/-- `Converter<double>::ToJS` (doubles modelled as exact rationals). -/
def Converter.double.ToJS (value : ℚ) : NValue := napi_create_double value

/-- `Converter<double>::ToNative`. -/
def Converter.double.ToNative (value : NValue) : Except NStatus ℚ :=
  napi_get_value_double value

/-- `Converter<object>::ToNative`: zero-cost reinterpretation of the handle. -/
def Converter.object.ToNative (val : NValue) : Except NStatus NValue :=
  .ok val

/-- `Converter<object>::ToJS`: zero-cost reinterpretation of the handle. -/
def Converter.object.ToJS (val : NValue) : Except NStatus NValue :=
  .ok val

/-- `static_cast<int64_t>` of a 64-bit `unsigned long` (two's-complement
wrap-around). -/
def int64OfULong (n : Nat) : Int :=
  if n % 2 ^ 64 < 2 ^ 63 then (n % 2 ^ 64 : Int) else (n % 2 ^ 64 : Int) - 2 ^ 64

/-- `Converter<unsigned long>::ToJS`: casts to `int64_t` and delegates
(`unsigned long` is 64 bits wide on the target platform). -/
def Converter.ulong.ToJS (val : Nat) : NValue :=
  Converter.int64.ToJS (int64OfULong val)

/-- `Converter<unsigned long>::ToNative`: reads an `int64_t` and
`static_cast`s it to `unsigned long` (reduction mod `2^64`). -/
def Converter.ulong.ToNative (val : NValue) : Except NStatus Nat :=
  match Converter.int64.ToNative val with
  | .error s => .error s
  | .ok from_js => .ok ((from_js % (2 ^ 64 : Int)).toNat)

/-! ## `Converter<DOMString>` -/

/-- The native `DOMString` (a `std::string`): its byte content, with no
implicit terminator.  Declared in the project header, which only survives
in this translation unit through its uses here. -/
abbrev DOMString := List Nat

/-- `std::string::resize`: truncate or zero-pad to the requested length. -/
def stringResize (s : List Nat) (n : Nat) : List Nat :=
  s.take n ++ List.replicate (n - s.length) 0

/-- `Converter<DOMString>::ToNative`: query the required byte length,
resize the result buffer to exactly that length + 1, and re-fetch into the
buffer through `c_str()`.  Note the buffer keeps length `size + 1`. -/
def Converter.DOMString.ToNative (result : DOMString) (str : NValue) :
    Except NStatus DOMString :=
  match napi_get_value_string_utf8_len str with
  | .error s => .error s
  | .ok size =>
      let buf := stringResize result (size + 1)
      match napi_get_value_string_utf8_copy str buf (size + 1) with
      | .error s => .error s
      | .ok (buf2, _) => .ok buf2

/-- `Converter<DOMString>::ToJS`: `napi_create_string_utf8` from `c_str()`
with `NAPI_AUTO_LENGTH`. -/
def Converter.DOMString.ToJS (str : DOMString) : NValue :=
  napi_create_string_utf8_auto str

/-! ## Arithmetic facts about the `unsigned long` cast -/

theorem int64OfULong_lo (n : Nat) : -(2 ^ 63 : Int) ≤ int64OfULong n := by
  rw [int64OfULong]; split <;> omega

theorem int64OfULong_hi (n : Nat) : int64OfULong n < 2 ^ 63 := by
  rw [int64OfULong]; split <;> omega

theorem int64OfULong_mod (n : Nat) :
    (int64OfULong n) % (2 ^ 64 : Int) = ((n % 2 ^ 64 : Nat) : Int) := by
  rw [int64OfULong]; split <;> omega

theorem int64OfULong_toNat_mod (i : Int) (h1 : -(2 ^ 63) ≤ i)
    (h2 : i < 2 ^ 63) : int64OfULong ((i % (2 ^ 64 : Int)).toNat) = i := by
  rw [int64OfULong]; split <;> omega

/-! ## Round-trip lemmas for the primitive converters -/

theorem uint32_roundtrip (x : Nat) (h : x < 2 ^ 32) :
    Converter.uint32.ToNative (Converter.uint32.ToJS x) = .ok x := by
  have hc : ((x : ℚ)).den = 1 ∧ 0 ≤ ((x : ℚ)).num ∧ ((x : ℚ)).num < 2 ^ 32 := by
    rw [Rat.den_natCast, Rat.num_natCast]
    exact ⟨rfl, Int.natCast_nonneg x, by exact_mod_cast h⟩
  simp only [Converter.uint32.ToNative, Converter.uint32.ToJS,
    napi_create_uint32, napi_get_value_uint32, Rat.num_natCast,
    Int.toNat_natCast]
  rw [if_pos]
  exact ⟨Rat.den_natCast x, Int.natCast_nonneg x, by exact_mod_cast h⟩

theorem uint32_tojs_of_tonative (v : NValue) (x : Nat)
    (h : Converter.uint32.ToNative v = .ok x) :
    Converter.uint32.ToJS x = v := by
  cases v with
  | number q =>
      simp only [Converter.uint32.ToNative, napi_get_value_uint32] at h
      split at h
      · rename_i hc
        obtain ⟨hden, hnn, _⟩ := hc
        cases h
        simp only [Converter.uint32.ToJS, napi_create_uint32]
        congr 1
        have hq : ((q.num : ℤ) : ℚ) = q := Rat.coe_int_num_of_den_eq_one hden
        rw [← Int.toNat_of_nonneg hnn] at hq
        exact_mod_cast hq
      · cases h
  | undefined => simp [Converter.uint32.ToNative, napi_get_value_uint32] at h
  | nullv => simp [Converter.uint32.ToNative, napi_get_value_uint32] at h
  | boolean b => simp [Converter.uint32.ToNative, napi_get_value_uint32] at h
  | str s => simp [Converter.uint32.ToNative, napi_get_value_uint32] at h
  | obj id => simp [Converter.uint32.ToNative, napi_get_value_uint32] at h

theorem int32_roundtrip (x : Int) (h1 : -(2 ^ 31) ≤ x) (h2 : x < 2 ^ 31) :
    Converter.int32.ToNative (Converter.int32.ToJS x) = .ok x := by
  have hc : ((x : ℚ)).den = 1 ∧ -(2 ^ 31) ≤ ((x : ℚ)).num ∧ ((x : ℚ)).num < 2 ^ 31 := by
    rw [Rat.den_intCast, Rat.num_intCast]
    exact ⟨rfl, h1, h2⟩
  simp only [Converter.int32.ToNative, Converter.int32.ToJS,
    napi_create_int32, napi_get_value_int32, Rat.num_intCast]
  rw [if_pos]
  exact ⟨Rat.den_intCast x, h1, h2⟩

theorem int32_tojs_of_tonative (v : NValue) (x : Int)
    (h : Converter.int32.ToNative v = .ok x) :
    Converter.int32.ToJS x = v := by
  cases v with
  | number q =>
      simp only [Converter.int32.ToNative, napi_get_value_int32] at h
      split at h
      · rename_i hc
        cases h
        simp only [Converter.int32.ToJS, napi_create_int32]
        congr 1
        exact Rat.coe_int_num_of_den_eq_one hc.1
      · cases h
  | undefined => simp [Converter.int32.ToNative, napi_get_value_int32] at h
  | nullv => simp [Converter.int32.ToNative, napi_get_value_int32] at h
  | boolean b => simp [Converter.int32.ToNative, napi_get_value_int32] at h
  | str s => simp [Converter.int32.ToNative, napi_get_value_int32] at h
  | obj id => simp [Converter.int32.ToNative, napi_get_value_int32] at h

theorem int64_roundtrip (x : Int) (h1 : -(2 ^ 63) ≤ x) (h2 : x < 2 ^ 63) :
    Converter.int64.ToNative (Converter.int64.ToJS x) = .ok x := by
  have hc : ((x : ℚ)).den = 1 ∧ -(2 ^ 63) ≤ ((x : ℚ)).num ∧ ((x : ℚ)).num < 2 ^ 63 := by
    rw [Rat.den_intCast, Rat.num_intCast]
    exact ⟨rfl, h1, h2⟩
  simp only [Converter.int64.ToNative, Converter.int64.ToJS,
    napi_create_int64, napi_get_value_int64, Rat.num_intCast]
  rw [if_pos]
  exact ⟨Rat.den_intCast x, h1, h2⟩

theorem int64_tojs_of_tonative (v : NValue) (x : Int)
    (h : Converter.int64.ToNative v = .ok x) :
    Converter.int64.ToJS x = v := by
  cases v with
  | number q =>
      simp only [Converter.int64.ToNative, napi_get_value_int64] at h
      split at h
      · rename_i hc
        cases h
        simp only [Converter.int64.ToJS, napi_create_int64]
        congr 1
        exact Rat.coe_int_num_of_den_eq_one hc.1
      · cases h
  | undefined => simp [Converter.int64.ToNative, napi_get_value_int64] at h
  | nullv => simp [Converter.int64.ToNative, napi_get_value_int64] at h
  | boolean b => simp [Converter.int64.ToNative, napi_get_value_int64] at h
  | str s => simp [Converter.int64.ToNative, napi_get_value_int64] at h
  | obj id => simp [Converter.int64.ToNative, napi_get_value_int64] at h

theorem int64_tonative_range (v : NValue) (x : Int)
    (h : Converter.int64.ToNative v = .ok x) :
    -(2 ^ 63) ≤ x ∧ x < 2 ^ 63 := by
  cases v with
  | number q =>
      simp only [Converter.int64.ToNative, napi_get_value_int64] at h
      split at h
      · rename_i hc
        cases h
        exact ⟨hc.2.1, hc.2.2⟩
      · cases h
  | undefined => simp [Converter.int64.ToNative, napi_get_value_int64] at h
  | nullv => simp [Converter.int64.ToNative, napi_get_value_int64] at h
  | boolean b => simp [Converter.int64.ToNative, napi_get_value_int64] at h
  | str s => simp [Converter.int64.ToNative, napi_get_value_int64] at h
  | obj id => simp [Converter.int64.ToNative, napi_get_value_int64] at h

theorem double_roundtrip (x : ℚ) :
    Converter.double.ToNative (Converter.double.ToJS x) = .ok x := rfl

theorem double_tojs_of_tonative (v : NValue) (x : ℚ)
    (h : Converter.double.ToNative v = .ok x) :
    Converter.double.ToJS x = v := by
  cases v with
  | number q =>
      simp only [Converter.double.ToNative, napi_get_value_double] at h
      cases h
      rfl
  | undefined => simp [Converter.double.ToNative, napi_get_value_double] at h
  | nullv => simp [Converter.double.ToNative, napi_get_value_double] at h
  | boolean b => simp [Converter.double.ToNative, napi_get_value_double] at h
  | str s => simp [Converter.double.ToNative, napi_get_value_double] at h
  | obj id => simp [Converter.double.ToNative, napi_get_value_double] at h

theorem ulong_roundtrip (n : Nat) (h : n < 2 ^ 64) :
    Converter.ulong.ToNative (Converter.ulong.ToJS n) = .ok n := by
  unfold Converter.ulong.ToNative Converter.ulong.ToJS
  rw [int64_roundtrip _ (int64OfULong_lo n) (int64OfULong_hi n)]
  show Except.ok (((int64OfULong n) % (2 ^ 64 : Int)).toNat) = Except.ok n
  rw [int64OfULong_mod n]
  congr 1
  omega

theorem ulong_tojs_of_tonative (v : NValue) (x : Nat)
    (h : Converter.ulong.ToNative v = .ok x) :
    Converter.ulong.ToJS x = v := by
  cases hi : Converter.int64.ToNative v with
  | error s =>
      unfold Converter.ulong.ToNative at h
      rw [hi] at h
      cases h
  | ok i =>
      unfold Converter.ulong.ToNative at h
      rw [hi] at h
      obtain ⟨hlo, hhi⟩ := int64_tonative_range v i hi
      have h2 : ((i % (2 ^ 64 : Int)).toNat) = x := by
        injection h
      subst h2
      unfold Converter.ulong.ToJS
      rw [int64OfULong_toNat_mod i hlo hhi]
      exact int64_tojs_of_tonative v i hi

theorem object_roundtrip (v : NValue) :
    Converter.object.ToJS v = .ok v ∧ Converter.object.ToNative v = .ok v :=
  ⟨rfl, rfl⟩

/-! ## DOMString codec lemmas -/

theorem stringResize_length (s : List Nat) (n : Nat) :
    (stringResize s n).length = n := by
  simp only [stringResize, List.length_append, List.length_take,
    List.length_replicate]
  omega

theorem takeWhile_append_zero (b : List Nat) (h : 0 ∉ b) :
    (b ++ [0]).takeWhile (· ≠ 0) = b := by
  induction b with
  | nil => simp
  | cons a t ih =>
      simp only [List.mem_cons, not_or] at h
      have ha : a ≠ 0 := fun hc => h.1 hc.symm
      simp only [List.cons_append, List.takeWhile_cons]
      simpa [ha, decide_not] using ih h.2

/-- `Converter<DOMString>::ToNative` on any dynamic string produces the
string's bytes followed by one retained zero terminator, independently of
the previous buffer content. -/
theorem domstring_tonative_str (prev : DOMString) (b : List Nat) :
    Converter.DOMString.ToNative prev (.str b) = .ok (b ++ [0]) := by
  have hdrop : (stringResize prev (b.length + 1)).drop (b.length + 1) = [] :=
    List.drop_eq_nil_of_le (le_of_eq (stringResize_length prev (b.length + 1)))
  simp only [Converter.DOMString.ToNative, napi_get_value_string_utf8_len,
    napi_get_value_string_utf8_copy, Nat.add_sub_cancel, min_self,
    List.take_length, hdrop, List.append_nil]

/-- C1 counterexample: the claimed exact round-trip law
`ToNative(ToJS(x)) == x` fails for `DOMString` already at the empty native
string: the codec resizes the result buffer to `length + 1` and re-fetches,
leaving the zero terminator inside the native string's length, so the
round trip yields `"\x00"` (one retained terminator byte), not `""`. -/
theorem C1_domstring_roundtrip_counterexample :
    Converter.DOMString.ToNative [] (Converter.DOMString.ToJS []) ≠
      .ok ([] : DOMString) := by
  rw [show Converter.DOMString.ToJS [] = .str [] from rfl,
    domstring_tonative_str]
  simp

/-- C1 (amended): for the numeric converters (uint32, int32, int64, double
modelled exactly, unsigned long via 64-bit wrap-around) and the opaque
object converter, `ToNative(ToJS(x)) = x` for every representable native
value and `ToJS(ToNative(v))` reproduces every well-typed dynamic value
`v` exactly.  For `DOMString`, `ToNative` queries the required byte
length, allocates a buffer of exactly that length + 1 and re-fetches into
it; consequently `ToNative(ToJS(x))` yields `x`'s bytes up to the first
NUL followed by one retained NUL terminator (not `x` itself), while
`ToJS(ToNative(v))` preserves every NUL-free dynamic string `v`. -/
theorem C1_converter_roundtrips :
    (∀ x : Nat, x < 2 ^ 32 →
      Converter.uint32.ToNative (Converter.uint32.ToJS x) = .ok x) ∧
    (∀ x : Int, -(2 ^ 31) ≤ x → x < 2 ^ 31 →
      Converter.int32.ToNative (Converter.int32.ToJS x) = .ok x) ∧
    (∀ x : Int, -(2 ^ 63) ≤ x → x < 2 ^ 63 →
      Converter.int64.ToNative (Converter.int64.ToJS x) = .ok x) ∧
    (∀ x : ℚ, Converter.double.ToNative (Converter.double.ToJS x) = .ok x) ∧
    (∀ n : Nat, n < 2 ^ 64 →
      Converter.ulong.ToNative (Converter.ulong.ToJS n) = .ok n) ∧
    (∀ v : NValue, Converter.object.ToJS v = .ok v ∧
      Converter.object.ToNative v = .ok v) ∧
    (∀ v x, Converter.uint32.ToNative v = .ok x →
      Converter.uint32.ToJS x = v) ∧
    (∀ v x, Converter.int32.ToNative v = .ok x →
      Converter.int32.ToJS x = v) ∧
    (∀ v x, Converter.int64.ToNative v = .ok x →
      Converter.int64.ToJS x = v) ∧
    (∀ v x, Converter.double.ToNative v = .ok x →
      Converter.double.ToJS x = v) ∧
    (∀ v x, Converter.ulong.ToNative v = .ok x →
      Converter.ulong.ToJS x = v) ∧
    (∀ prev : DOMString, ∀ b : List Nat,
      Converter.DOMString.ToNative prev (.str b) = .ok (b ++ [0]) ∧
      (stringResize prev (b.length + 1)).length = b.length + 1) ∧
    (∀ prev : DOMString, ∀ x : DOMString,
      Converter.DOMString.ToNative prev (Converter.DOMString.ToJS x) =
        .ok (x.takeWhile (· ≠ 0) ++ [0])) ∧
    (∀ b : List Nat, 0 ∉ b →
      Converter.DOMString.ToJS (b ++ [0]) = .str b) := by
  refine ⟨uint32_roundtrip, int32_roundtrip, int64_roundtrip,
    double_roundtrip, ulong_roundtrip, object_roundtrip,
    uint32_tojs_of_tonative, int32_tojs_of_tonative,
    int64_tojs_of_tonative, double_tojs_of_tonative,
    ulong_tojs_of_tonative, ?_, ?_, ?_⟩
  · exact fun prev b =>
      ⟨domstring_tonative_str prev b, stringResize_length prev (b.length + 1)⟩
  · exact fun prev x => domstring_tonative_str prev (x.takeWhile (· ≠ 0))
  · intro b hb
    unfold Converter.DOMString.ToJS napi_create_string_utf8_auto
    rw [takeWhile_append_zero b hb]

/-- Witness for `C1_converter_roundtrips` at concrete inputs. -/
theorem C1_converter_roundtrips_witness :
    Converter.uint32.ToNative (Converter.uint32.ToJS 7) = .ok 7 ∧
    Converter.int32.ToNative (Converter.int32.ToJS (-5)) = .ok (-5) ∧
    Converter.ulong.ToNative (Converter.ulong.ToJS (2 ^ 64 - 1)) =
      .ok (2 ^ 64 - 1) ∧
    Converter.DOMString.ToNative [] (.str [104, 105]) = .ok [104, 105, 0] ∧
    Converter.DOMString.ToJS [104, 105, 0] = .str [104, 105] :=
  ⟨C1_converter_roundtrips.1 7 (by norm_num),
   C1_converter_roundtrips.2.1 (-5) (by norm_num) (by norm_num),
   C1_converter_roundtrips.2.2.2.2.1 (2 ^ 64 - 1) (by norm_num),
   (C1_converter_roundtrips.2.2.2.2.2.2.2.2.2.2.2.1 [] [104, 105]).1,
   C1_converter_roundtrips.2.2.2.2.2.2.2.2.2.2.2.2.2 [104, 105] (by decide)⟩

/-! ## Overload resolution (`PickSignature`)

`webidl_sig` is declared in the project header; modelled from the spec:
"Signature Candidate: { parameter_type_sequence : ordered sequence of
RuntimeTypeTag, is_candidate : bool }" (§3). -/

structure webidl_sig where
  sig : List NType
  candidate : Bool
deriving DecidableEq, Repr

/-- One inner-loop step of `PickSignature`: a still-candidate signature is
marked not-a-candidate when position `idx` is beyond its parameter list or
its expected tag at `idx` differs from the actual tag `t`. -/
def markSig (t : NType) (idx : Nat) (s : webidl_sig) : webidl_sig :=
  if s.candidate then
    if s.sig[idx]? ≠ some t then { s with candidate := false } else s
  else s

/-- The outer loop of `PickSignature` over the argument positions. -/
def pickMarkLoop : List NType → Nat → List webidl_sig → List webidl_sig
  | [], _, sigs => sigs
  | t :: ts, idx, sigs => pickMarkLoop ts (idx + 1) (sigs.map (markSig t idx))

/-- The final loop of `PickSignature`: index of the first signature still
marked candidate, scanning in declaration order. -/
def findFirstCandidate : List webidl_sig → Nat → Option Nat
  | [], _ => none
  | s :: rest, idx =>
      if s.candidate then some idx else findFirstCandidate rest (idx + 1)

/-- `PickSignature`: marks non-candidates position by position, then
writes the first remaining candidate's index into `sig_idx`; when no
candidate remains, `sig_idx` keeps the caller's pre-initialized value. -/
def PickSignature (argv : List NValue) (sigs : List webidl_sig)
    (sig_idx : Int) : Int :=
  let sigs2 := pickMarkLoop (argv.map typeofV) 0 sigs
  match findFirstCandidate sigs2 0 with
  | some i => (i : Int)
  | none => sig_idx

/-- A signature matches the actual tags from position `idx` on: every
remaining argument position lies within the parameter list and carries the
expected tag. -/
def sigMatchesFrom : Nat → List NType → List NType → Bool
  | _, [], _ => true
  | idx, t :: ts, s => (s[idx]? == some t) && sigMatchesFrom (idx + 1) ts s

/-- Full match: the signature accepts the entire actual tag sequence. -/
def sigMatches (tags : List NType) (s : List NType) : Bool :=
  sigMatchesFrom 0 tags s

theorem markSig_candidate (t : NType) (idx : Nat) (s : webidl_sig) :
    (markSig t idx s).candidate = (s.candidate && (s.sig[idx]? == some t)) := by
  unfold markSig
  by_cases hc : s.candidate
  · by_cases hm : s.sig[idx]? = some t <;> simp [hc, hm]
  · simp [hc]

theorem markSig_sig (t : NType) (idx : Nat) (s : webidl_sig) :
    (markSig t idx s).sig = s.sig := by
  unfold markSig
  by_cases hc : s.candidate
  · by_cases hm : s.sig[idx]? = some t <;> simp [hc, hm]
  · simp [hc]

theorem pickMarkLoop_eq (ts : List NType) (idx : Nat) (sigs : List webidl_sig) :
    pickMarkLoop ts idx sigs =
      sigs.map (fun s =>
        { s with candidate := s.candidate && sigMatchesFrom idx ts s.sig }) := by
  induction ts generalizing idx sigs with
  | nil =>
      simp only [pickMarkLoop, sigMatchesFrom, Bool.and_true]
      exact (List.map_id' sigs).symm
  | cons t ts ih =>
      simp only [pickMarkLoop, ih, List.map_map]
      apply List.map_congr_left
      intro s _
      simp only [Function.comp_apply, markSig_sig, markSig_candidate,
        sigMatchesFrom]
      cases s.candidate <;> simp [Bool.and_assoc]

/-- The specification's description of the resolver's output: the index of
the first signature, in original declaration order, whose expected tags
match the whole actual argument-tag sequence. -/
def specFirstMatch (tags : List NType) : List webidl_sig → Nat → Option Nat
  | [], _ => none
  | s :: rest, idx =>
      if sigMatches tags s.sig then some idx
      else specFirstMatch tags rest (idx + 1)

theorem findFirstCandidate_marked (tags : List NType) (sigs : List webidl_sig)
    (i : Nat) (h : ∀ s ∈ sigs, s.candidate = true) :
    findFirstCandidate
      (sigs.map fun s =>
        { s with candidate := s.candidate && sigMatches tags s.sig }) i =
      specFirstMatch tags sigs i := by
  induction sigs generalizing i with
  | nil => rfl
  | cons a t ih =>
      have ha := h a (List.mem_cons_self a t)
      simp only [List.map_cons, findFirstCandidate, specFirstMatch, ha,
        Bool.true_and]
      by_cases hm : sigMatches tags a.sig
      · simp [hm]
      · rw [if_neg hm, if_neg hm]
        exact ih (i + 1) fun s hs => h s (List.mem_cons_of_mem a hs)

/-- Signatures used by the spec's worked overload-resolution example. -/
def exampleSigs : List webidl_sig :=
  [⟨[.number], true⟩, ⟨[.string], true⟩, ⟨[.number, .string], true⟩]

/-- Two equally-matching signatures, for the tie-break example. -/
def tieSigs : List webidl_sig := [⟨[.number], true⟩, ⟨[.number], true⟩]

/-- C2: `PickSignature` marks a signature not-a-candidate exactly when
some argument position is beyond its parameter list or carries a
different runtime tag (`sigMatches` is the negation of that), returns the
first still-candidate index in declaration order, and leaves `sig_idx`
(the caller's `-1` sentinel) untouched when no candidate remains; the
spec's worked examples and the first-declared-wins tie-break follow. -/
theorem C2_PickSignature_correct :
    (∀ (argv : List NValue) (sigs : List webidl_sig) (sig_idx : Int),
      (∀ s ∈ sigs, s.candidate = true) →
      pickMarkLoop (argv.map typeofV) 0 sigs =
        sigs.map (fun s =>
          { s with candidate := sigMatches (argv.map typeofV) s.sig }) ∧
      PickSignature argv sigs sig_idx =
        (specFirstMatch (argv.map typeofV) sigs 0).elim sig_idx
          (fun n => (n : Int))) ∧
    PickSignature [.number 1] exampleSigs (-1) = 0 ∧
    PickSignature [.number 1, .str [104]] exampleSigs (-1) = 2 ∧
    PickSignature [.boolean true] exampleSigs (-1) = -1 ∧
    PickSignature [.number 1] tieSigs (-1) = 0 := by
  refine ⟨?_, by decide, by decide, by decide, by decide⟩
  intro argv sigs sig_idx h
  have hmark : pickMarkLoop (argv.map typeofV) 0 sigs =
      sigs.map (fun s =>
        { s with candidate := sigMatches (argv.map typeofV) s.sig }) := by
    rw [pickMarkLoop_eq]
    exact List.map_congr_left fun s hs => by
      rw [h s hs, Bool.true_and, sigMatches]
  refine ⟨hmark, ?_⟩
  have hmark2 : pickMarkLoop (argv.map typeofV) 0 sigs =
      sigs.map (fun s =>
        { s with candidate :=
            s.candidate && sigMatches (argv.map typeofV) s.sig }) := by
    rw [pickMarkLoop_eq]
    exact List.map_congr_left fun s hs => by rw [sigMatches]
  simp only [PickSignature]
  rw [hmark2, findFirstCandidate_marked _ _ _ h]
  cases specFirstMatch (argv.map typeofV) sigs 0 <;> rfl

/-- Witness for `C2_PickSignature_correct` at a concrete signature set. -/
theorem C2_PickSignature_correct_witness :
    pickMarkLoop ([NValue.number 1].map typeofV) 0 exampleSigs =
      exampleSigs.map (fun s =>
        { s with candidate :=
            sigMatches ([NValue.number 1].map typeofV) s.sig }) ∧
    PickSignature [NValue.number 1] exampleSigs (-1) =
      (specFirstMatch ([NValue.number 1].map typeofV) exampleSigs 0).elim
        (-1) (fun n => (n : Int)) :=
  C2_PickSignature_correct.1 [NValue.number 1] exampleSigs (-1)
    (by decide)

/-! ## The host environment

The handle API's mutable state, modelled from the spec's boundary
description (§6): an object heap (arrays, wrapped instances), a reference
heap (strong references created/deleted manually), a native heap (the
native objects owned by Wrapping Records; `none` = deleted), a deferred
heap for promises, a pending-exception slot, and a count of open handle
scopes. -/

/-- A Wrapping Record (§3): owns one native object (by native-heap id) and
an ordered sequence of optional same-object reference slots. -/
structure Wrapping where
  native : Nat
  refs : List (Option Nat)
deriving DecidableEq, Repr

/-- A heap object: a dynamic array, a wrapped instance, or a plain object. -/
inductive HObj where
  | arr (elems : List NValue)
  | wrapped (w : Wrapping)
  | plain
deriving DecidableEq, Repr

/-- The state of one deferred/promise pair. -/
inductive DefState where
  | unsettled
  | resolvedWith (v : NValue)
  | rejectedWith (v : NValue)
deriving DecidableEq, Repr

structure Env where
  scopes : Nat
  objs : List HObj
  refs : List (Option NValue)
  natives : List (Option NValue)
  deferreds : List DefState
  pendingExc : Option String
deriving Repr

/-! ### Handle-API primitives over `Env` (modelled from the spec, §6) -/

def napi_open_handle_scope (e : Env) : Env := { e with scopes := e.scopes + 1 }

def napi_close_handle_scope (e : Env) : Env := { e with scopes := e.scopes - 1 }

def napi_create_array (e : Env) : Env × Nat :=
  ({ e with objs := e.objs ++ [HObj.arr []] }, e.objs.length)

/-- Dynamic-array element write semantics: in-range writes update, writes
past the end extend the array with undefined holes. -/
def setArrElem (elems : List NValue) (idx : Nat) (v : NValue) : List NValue :=
  if idx < elems.length then elems.set idx v
  else elems ++ List.replicate (idx - elems.length) .undefined ++ [v]

def napi_set_element (e : Env) (aid : Nat) (idx : Nat) (v : NValue) :
    Except NStatus Env :=
  match e.objs[aid]? with
  | some (.arr elems) =>
      .ok { e with objs := e.objs.set aid (.arr (setArrElem elems idx v)) }
  | _ => .error .array_expected

def napi_get_array_length (e : Env) (v : NValue) : Except NStatus Nat :=
  match v with
  | .obj id =>
      match e.objs[id]? with
      | some (.arr elems) => .ok elems.length
      | _ => .error .array_expected
  | _ => .error .array_expected

def napi_get_element (e : Env) (v : NValue) (idx : Nat) :
    Except NStatus NValue :=
  match v with
  | .obj id =>
      match e.objs[id]? with
      | some (.arr elems) => .ok (elems.getD idx .undefined)
      | _ => .error .array_expected
  | _ => .error .array_expected

/-! ## Container codecs (`details::ArrayToJS` / `details::ArrayToNative`)

The element codec is a `Converter<T>` pair; the primitive specializations
above do not touch the environment, so the element codec is passed as a
pair of pure fallible functions. -/

structure SimpleConv (α : Type) where
  toJS : α → Except NStatus NValue
  toNative : NValue → Except NStatus α

/-- The element loop of `details::ArrayToJS`: convert each element in
ascending index order and set it at the matching index; any failure
short-circuits. -/
def arrayToJSLoop (c : SimpleConv α) (aid : Nat) :
    Env → Nat → List α → Env × Except NStatus Unit
  | e, _, [] => (e, .ok ())
  | e, idx, x :: rest =>
      match c.toJS x with
      | .error s => (e, .error s)
      | .ok member =>
          match napi_set_element e aid idx member with
          | .error s => (e, .error s)
          | .ok e2 => arrayToJSLoop c aid e2 (idx + 1) rest

/-- `details::ArrayToJS`: open an escapable scope, create an empty array,
fill it element by element, escape it, close the scope; on failure close
the scope and propagate the status without touching the caller's result.
The `freeze` template parameter is accepted and unused (the source casts
it to void pending host support). -/
def ArrayToJS (freeze : Bool) (c : SimpleConv α) (e : Env) (ar : List α) :
    Env × Except NStatus NValue :=
  let e0 := napi_open_handle_scope e
  let created := napi_create_array e0
  match arrayToJSLoop c created.2 created.1 0 ar with
  | (e2, .error s) => (napi_close_handle_scope e2, .error s)
  | (e2, .ok ()) => (napi_close_handle_scope e2, .ok (.obj created.2))

/-- The element loop of `details::ArrayToNative`: fetch and convert each
index in ascending order; any failure short-circuits. -/
def arrayToNativeLoop (c : SimpleConv α) (ar : NValue) :
    Env → Nat → Nat → Env × Except NStatus (List α)
  | e, _, 0 => (e, .ok [])
  | e, idx, n + 1 =>
      match napi_get_element e ar idx with
      | .error s => (e, .error s)
      | .ok member =>
          match c.toNative member with
          | .error s => (e, .error s)
          | .ok x =>
              match arrayToNativeLoop c ar e (idx + 1) n with
              | (e2, .error s) => (e2, .error s)
              | (e2, .ok rest) => (e2, .ok (x :: rest))

/-- `details::ArrayToNative`: open a scope, read the array length, resize
the native container and convert every element in ascending order into
place; close the scope; on failure close the scope and propagate the
status without touching the caller's result. -/
def ArrayToNative (c : SimpleConv α) (e : Env) (ar : NValue) :
    Env × Except NStatus (List α) :=
  let e0 := napi_open_handle_scope e
  match napi_get_array_length e0 ar with
  | .error s => (napi_close_handle_scope e0, .error s)
  | .ok size =>
      match arrayToNativeLoop c ar e0 0 size with
      | (e1, .error s) => (napi_close_handle_scope e1, .error s)
      | (e1, .ok res) => (napi_close_handle_scope e1, .ok res)

/-- `sequence<T>::ToJS` delegates to `details::ArrayToJS` with
`freeze = false`. -/
def sequence.ToJS (c : SimpleConv α) : Env → List α → Env × Except NStatus NValue :=
  ArrayToJS false c

/-- `sequence<T>::ToNative` delegates to `details::ArrayToNative`. -/
def sequence.ToNative (c : SimpleConv α) : Env → NValue → Env × Except NStatus (List α) :=
  ArrayToNative c

/-- `FrozenArray<T>::ToJS` delegates to `details::ArrayToJS` with
`freeze = true` (currently a documented no-op). -/
def FrozenArray.ToJS (c : SimpleConv α) : Env → List α → Env × Except NStatus NValue :=
  ArrayToJS true c

/-- `FrozenArray<T>::ToNative` delegates to `details::ArrayToNative`. -/
def FrozenArray.ToNative (c : SimpleConv α) : Env → NValue → Env × Except NStatus (List α) :=
  ArrayToNative c

/-- Element-wise conversion of a whole native container (specification
device used to state the loop lemmas). -/
def convAll (c : SimpleConv α) : List α → Except NStatus (List NValue)
  | [] => .ok []
  | x :: xs =>
      match c.toJS x with
      | .error s => .error s
      | .ok v =>
          match convAll c xs with
          | .error s => .error s
          | .ok vs => .ok (v :: vs)

/-- Element-wise back-conversion of a whole dynamic element list. -/
def convBackAll (c : SimpleConv α) : List NValue → Except NStatus (List α)
  | [] => .ok []
  | v :: vs =>
      match c.toNative v with
      | .error s => .error s
      | .ok x =>
          match convBackAll c vs with
          | .error s => .error s
          | .ok xs => .ok (x :: xs)

/-! ### List helpers for the array heap -/

theorem set_of_mem_getElem? (l : List α) (i : Nat) (a : α)
    (h : l[i]? = some a) : l.set i a = l := by
  induction l generalizing i with
  | nil => simp at h
  | cons b t ih =>
      cases i with
      | zero =>
          simp only [List.getElem?_cons_zero, Option.some.injEq] at h
          simp [h]
      | succ j =>
          simp only [List.getElem?_cons_succ] at h
          simp [ih j h]

theorem getElem?_set_of_getElem? (l : List α) (i : Nat) (a b : α)
    (h : l[i]? = some a) : (l.set i b)[i]? = some b := by
  induction l generalizing i with
  | nil => simp at h
  | cons c t ih =>
      cases i with
      | zero => simp
      | succ j =>
          simp only [List.getElem?_cons_succ] at h
          simp [ih j h]

theorem setArrElem_append (pre : List NValue) (v : NValue) :
    setArrElem pre pre.length v = pre ++ [v] := by
  simp [setArrElem]

/-! ### Loop characterizations -/

theorem arrayToJSLoop_ok (c : SimpleConv α) (aid : Nat) (xs : List α)
    (vs : List NValue) (hconv : convAll c xs = .ok vs) :
    ∀ (e : Env) (pre : List NValue), e.objs[aid]? = some (.arr pre) →
      arrayToJSLoop c aid e pre.length xs =
        ({ e with objs := e.objs.set aid (.arr (pre ++ vs)) }, .ok ()) := by
  induction xs generalizing vs with
  | nil =>
      intro e pre ha
      cases hconv
      show (e, Except.ok ()) = _
      rw [List.append_nil, set_of_mem_getElem? _ _ _ ha]
  | cons x xs ih =>
      intro e pre ha
      simp only [convAll] at hconv
      cases hx : c.toJS x with
      | error s => rw [hx] at hconv; cases hconv
      | ok v =>
          rw [hx] at hconv
          cases hrest : convAll c xs with
          | error s => rw [hrest] at hconv; cases hconv
          | ok vs2 =>
              rw [hrest] at hconv
              cases hconv
              have hset : napi_set_element e aid pre.length v = .ok { e with objs := e.objs.set aid (.arr (pre ++ [v])) } := by
                simp only [napi_set_element]
                rw [ha]
                show Except.ok { e with objs := e.objs.set aid (.arr (setArrElem pre pre.length v)) } = _
                rw [setArrElem_append]
              show arrayToJSLoop c aid e pre.length (x :: xs) = _
              simp only [arrayToJSLoop, hx, hset]
              have ha2 : ({ e with objs := e.objs.set aid (.arr (pre ++ [v])) } : Env).objs[aid]? = some (.arr (pre ++ [v])) :=
                getElem?_set_of_getElem? _ _ _ _ ha
              have := ih vs2 hrest _ _ ha2
              rw [show (pre ++ [v]).length = pre.length + 1 by simp] at this
              rw [this]
              simp [List.set_set, List.append_assoc]

theorem arrayToNativeLoop_ok (c : SimpleConv α) (aid : Nat)
    (elems : List NValue) (n : Nat) :
    ∀ (k : Nat) (xs : List α) (e : Env),
      e.objs[aid]? = some (.arr elems) → k + n = elems.length →
      convBackAll c (elems.drop k) = .ok xs →
      arrayToNativeLoop c (.obj aid) e k n = (e, .ok xs) := by
  induction n with
  | zero =>
      intro k xs e ha hk hconv
      rw [List.drop_of_length_le (by omega)] at hconv
      cases hconv
      rfl
  | succ n ih =>
      intro k xs e ha hk hconv
      have hklt : k < elems.length := by omega
      rw [List.drop_eq_getElem_cons hklt] at hconv
      simp only [convBackAll] at hconv
      cases hx : c.toNative elems[k] with
      | error s => rw [hx] at hconv; cases hconv
      | ok x =>
          rw [hx] at hconv
          cases hrest : convBackAll c (elems.drop (k + 1)) with
          | error s => rw [hrest] at hconv; cases hconv
          | ok xs2 =>
              rw [hrest] at hconv
              cases hconv
              have hget : napi_get_element e (.obj aid) k = .ok elems[k] := by
                simp only [napi_get_element]
                rw [ha]
                show Except.ok (elems.getD k .undefined) = _
                rw [List.getD_eq_getElem?_getD, List.getElem?_eq_getElem hklt]
                rfl
              show arrayToNativeLoop c (.obj aid) e k (n + 1) = _
              simp only [arrayToNativeLoop, hget, hx]
              rw [ih (k + 1) xs2 e ha (by omega) hrest]

theorem convAll_roundtrip (c : SimpleConv α) (xs : List α)
    (h : ∀ x ∈ xs, ∃ v, c.toJS x = .ok v ∧ c.toNative v = .ok x) :
    ∃ vs, convAll c xs = .ok vs ∧ convBackAll c vs = .ok xs := by
  induction xs with
  | nil => exact ⟨[], rfl, rfl⟩
  | cons x xs ih =>
      obtain ⟨v, hv1, hv2⟩ := h x (List.mem_cons_self x xs)
      obtain ⟨vs, hc1, hc2⟩ := ih fun y hy => h y (List.mem_cons_of_mem x hy)
      refine ⟨v :: vs, ?_, ?_⟩
      · simp only [convAll, hv1, hc1]
      · simp only [convBackAll, hv2, hc2]

theorem ArrayToJS_ok (freeze : Bool) (c : SimpleConv α) (e : Env)
    (xs : List α) (vs : List NValue) (hconv : convAll c xs = .ok vs) :
    ArrayToJS freeze c e xs =
      ({ e with objs := (e.objs ++ [HObj.arr []]).set e.objs.length (.arr vs) },
        .ok (.obj e.objs.length)) := by
  have hloop : arrayToJSLoop c e.objs.length { e with scopes := e.scopes + 1, objs := e.objs ++ [HObj.arr []] } 0 xs = ({ e with scopes := e.scopes + 1, objs := (e.objs ++ [HObj.arr []]).set e.objs.length (.arr ([] ++ vs)) }, .ok ()) :=
    arrayToJSLoop_ok c e.objs.length xs vs hconv
      { e with scopes := e.scopes + 1, objs := e.objs ++ [HObj.arr []] } []
      (List.getElem?_concat_length _ _)
  simp only [List.nil_append] at hloop
  simp only [ArrayToJS, napi_open_handle_scope, napi_create_array]
  rw [hloop]
  rfl


theorem ArrayToNative_ok (c : SimpleConv α) (e : Env) (aid : Nat)
    (elems : List NValue) (xs : List α)
    (ha : e.objs[aid]? = some (.arr elems))
    (hconv : convBackAll c elems = .ok xs) :
    ArrayToNative c e (.obj aid) = (e, .ok xs) := by
  have hlen : napi_get_array_length
      { e with scopes := e.scopes + 1 } (.obj aid) = .ok elems.length := by
    simp only [napi_get_array_length]
    rw [show ({ e with scopes := e.scopes + 1 } : Env).objs = e.objs from rfl,
      ha]
  have hloop : arrayToNativeLoop c (.obj aid) { e with scopes := e.scopes + 1 } 0 elems.length = ({ e with scopes := e.scopes + 1 }, .ok xs) :=
    arrayToNativeLoop_ok c aid elems elems.length 0 xs
      { e with scopes := e.scopes + 1 } ha (by omega)
      (by rw [List.drop_zero]; exact hconv)
  simp only [ArrayToNative, napi_open_handle_scope]
  rw [hlen]
  simp [hloop, napi_close_handle_scope]

/-- C3: converting any ordered native sequence (mutable or frozen — the
`freeze` flag is a no-op) to a dynamic array and back yields the same
container: same length, pairwise-equal elements in the same order, both
loops scanning indices in ascending order; the empty sequence converts to
the empty container. -/
theorem C3_sequence_roundtrip (freeze : Bool) (c : SimpleConv α) (e : Env)
    (xs : List α)
    (h : ∀ x ∈ xs, ∃ v, c.toJS x = .ok v ∧ c.toNative v = .ok x) :
    ∃ (e1 : Env) (aid : Nat),
      ArrayToJS freeze c e xs = (e1, .ok (.obj aid)) ∧
      ArrayToNative c e1 (.obj aid) = (e1, .ok xs) := by
  obtain ⟨vs, hc1, hc2⟩ := convAll_roundtrip c xs h
  refine ⟨_, e.objs.length, ArrayToJS_ok freeze c e xs vs hc1, ?_⟩
  exact ArrayToNative_ok c _ e.objs.length vs xs
    (getElem?_set_of_getElem? _ _ _ _ (List.getElem?_concat_length _ _)) hc2

/-- The `Converter<object>` pair as an element codec. -/
def objConv : SimpleConv NValue :=
  ⟨Converter.object.ToJS, Converter.object.ToNative⟩

/-- An empty host environment. -/
def env0 : Env := ⟨0, [], [], [], [], none⟩

/-- Witness for `C3_sequence_roundtrip`: a two-element sequence and the
empty frozen array, with the object passthrough codec. -/
theorem C3_sequence_roundtrip_witness :
    (∃ (e1 : Env) (aid : Nat),
      ArrayToJS false objConv env0 [NValue.boolean true, NValue.undefined] =
        (e1, .ok (.obj aid)) ∧
      ArrayToNative objConv e1 (.obj aid) =
        (e1, .ok [NValue.boolean true, NValue.undefined])) ∧
    (∃ (e1 : Env) (aid : Nat),
      ArrayToJS true objConv env0 ([] : List NValue) = (e1, .ok (.obj aid)) ∧
      ArrayToNative objConv e1 (.obj aid) = (e1, .ok ([] : List NValue))) :=
  ⟨C3_sequence_roundtrip false objConv env0 _ (fun x _ => ⟨x, rfl, rfl⟩),
   C3_sequence_roundtrip true objConv env0 [] (fun x _ => ⟨x, rfl, rfl⟩)⟩

/-! ### Failure behaviour of the container codecs (scope balance and
short-circuit propagation) -/

theorem napi_set_element_scopes (e : Env) (aid idx : Nat) (v : NValue)
    (e2 : Env) (h : napi_set_element e aid idx v = .ok e2) :
    e2.scopes = e.scopes := by
  simp only [napi_set_element] at h
  cases hobj : e.objs[aid]? with
  | none => rw [hobj] at h; cases h
  | some o =>
      cases o with
      | arr elems => rw [hobj] at h; cases h; rfl
      | wrapped w => rw [hobj] at h; cases h
      | plain => rw [hobj] at h; cases h

theorem arrayToJSLoop_scopes (c : SimpleConv α) (aid : Nat) (xs : List α) :
    ∀ (e : Env) (idx : Nat),
      ((arrayToJSLoop c aid e idx xs).1).scopes = e.scopes := by
  induction xs with
  | nil => intro e idx; rfl
  | cons x xs ih =>
      intro e idx
      simp only [arrayToJSLoop]
      cases hjs : c.toJS x with
      | error s => rfl
      | ok v =>
          dsimp only
          cases hse : napi_set_element e aid idx v with
          | error s => rfl
          | ok e2 =>
              dsimp only
              rw [ih e2 (idx + 1),
                napi_set_element_scopes e aid idx v e2 hse]

theorem arrayToNativeLoop_scopes (c : SimpleConv α) (ar : NValue) (n : Nat) :
    ∀ (e : Env) (idx : Nat),
      ((arrayToNativeLoop c ar e idx n).1).scopes = e.scopes := by
  induction n with
  | zero => intro e idx; rfl
  | succ n ih =>
      intro e idx
      simp only [arrayToNativeLoop]
      cases hge : napi_get_element e ar idx with
      | error s => rfl
      | ok m =>
          dsimp only
          cases hna : c.toNative m with
          | error s => rfl
          | ok x =>
              dsimp only
              have h2 := ih e (idx + 1)
              revert h2
              rcases arrayToNativeLoop c ar e (idx + 1) n with ⟨e2, r⟩
              intro h2
              cases r with
              | error s => exact h2
              | ok rest => exact h2

theorem ArrayToJS_scopes (freeze : Bool) (c : SimpleConv α) (e : Env)
    (xs : List α) : ((ArrayToJS freeze c e xs).1).scopes = e.scopes := by
  simp only [ArrayToJS, napi_open_handle_scope, napi_create_array]
  have h2 := arrayToJSLoop_scopes c e.objs.length xs
    { e with scopes := e.scopes + 1, objs := e.objs ++ [HObj.arr []] } 0
  revert h2
  rcases arrayToJSLoop c e.objs.length { e with scopes := e.scopes + 1, objs := e.objs ++ [HObj.arr []] } 0 xs with ⟨e2, r⟩
  intro h2
  have h3 : e2.scopes = e.scopes + 1 := h2
  cases r with
  | error s =>
      show e2.scopes - 1 = e.scopes
      omega
  | ok u =>
      cases u
      show e2.scopes - 1 = e.scopes
      omega

theorem ArrayToNative_scopes (c : SimpleConv α) (e : Env) (v : NValue) :
    ((ArrayToNative c e v).1).scopes = e.scopes := by
  simp only [ArrayToNative, napi_open_handle_scope]
  cases napi_get_array_length { e with scopes := e.scopes + 1 } v with
  | error s => rfl
  | ok size =>
      dsimp only
      have h2 := arrayToNativeLoop_scopes c v size
        { e with scopes := e.scopes + 1 } 0
      revert h2
      rcases arrayToNativeLoop c v { e with scopes := e.scopes + 1 } 0 size with ⟨e2, r⟩
      intro h2
      have h3 : e2.scopes = e.scopes + 1 := h2
      cases r with
      | error s =>
          show e2.scopes - 1 = e.scopes
          omega
      | ok res =>
          show e2.scopes - 1 = e.scopes
          omega

theorem arrayToJSLoop_error (c : SimpleConv α) (aid : Nat) (good : List α)
    (x : α) (rest : List α) (vs : List NValue) (s : NStatus)
    (hgood : convAll c good = .ok vs) (hx : c.toJS x = .error s) :
    ∀ (e : Env) (pre : List NValue), e.objs[aid]? = some (.arr pre) →
      (arrayToJSLoop c aid e pre.length (good ++ x :: rest)).2 = .error s := by
  induction good generalizing vs with
  | nil =>
      intro e pre ha
      cases hgood
      simp only [List.nil_append, arrayToJSLoop, hx]
  | cons y ys ih =>
      intro e pre ha
      simp only [convAll] at hgood
      cases hy : c.toJS y with
      | error s2 => rw [hy] at hgood; cases hgood
      | ok v =>
          rw [hy] at hgood
          cases hrest : convAll c ys with
          | error s2 => rw [hrest] at hgood; cases hgood
          | ok vs2 =>
              rw [hrest] at hgood
              cases hgood
              have hset : napi_set_element e aid pre.length v = .ok { e with objs := e.objs.set aid (.arr (pre ++ [v])) } := by
                simp only [napi_set_element]
                rw [ha]
                show Except.ok { e with objs := e.objs.set aid (.arr (setArrElem pre pre.length v)) } = _
                rw [setArrElem_append]
              have ha2 : ({ e with objs := e.objs.set aid (.arr (pre ++ [v])) } : Env).objs[aid]? = some (.arr (pre ++ [v])) :=
                getElem?_set_of_getElem? _ _ _ _ ha
              have := ih vs2 hrest _ _ ha2
              rw [show (pre ++ [v]).length = pre.length + 1 by simp] at this
              simp only [List.cons_append, arrayToJSLoop, hy, hset]
              exact this

theorem ArrayToJS_error (freeze : Bool) (c : SimpleConv α) (e : Env)
    (good : List α) (x : α) (rest : List α) (vs : List NValue) (s : NStatus)
    (hgood : convAll c good = .ok vs) (hx : c.toJS x = .error s) :
    (ArrayToJS freeze c e (good ++ x :: rest)).2 = .error s := by
  have h2 := arrayToJSLoop_error c e.objs.length good x rest vs s hgood hx
    { e with scopes := e.scopes + 1, objs := e.objs ++ [HObj.arr []] } []
    (List.getElem?_concat_length _ _)
  simp only [List.length_nil] at h2
  simp only [ArrayToJS, napi_open_handle_scope, napi_create_array]
  revert h2
  rcases arrayToJSLoop c e.objs.length { e with scopes := e.scopes + 1, objs := e.objs ++ [HObj.arr []] } 0 (good ++ x :: rest) with ⟨e2, r⟩
  intro h2
  have h3 : r = .error s := h2
  subst h3
  rfl

theorem arrayToNativeLoop_error (c : SimpleConv α) (aid : Nat)
    (elems : List NValue) (n : Nat) :
    ∀ (k : Nat) (e : Env) (s : NStatus),
      e.objs[aid]? = some (.arr elems) → k + n = elems.length →
      convBackAll c (elems.drop k) = .error s →
      (arrayToNativeLoop c (.obj aid) e k n).2 = .error s := by
  induction n with
  | zero =>
      intro k e s ha hk hconv
      rw [List.drop_of_length_le (by omega)] at hconv
      cases hconv
  | succ n ih =>
      intro k e s ha hk hconv
      have hklt : k < elems.length := by omega
      rw [List.drop_eq_getElem_cons hklt] at hconv
      simp only [convBackAll] at hconv
      have hget : napi_get_element e (.obj aid) k = .ok elems[k] := by
        simp only [napi_get_element]
        rw [ha]
        show Except.ok (elems.getD k .undefined) = _
        rw [List.getD_eq_getElem?_getD, List.getElem?_eq_getElem hklt]
        rfl
      cases hx : c.toNative elems[k] with
      | error s2 =>
          rw [hx] at hconv
          cases hconv
          simp only [arrayToNativeLoop, hget, hx]
      | ok x =>
          rw [hx] at hconv
          cases hrest : convBackAll c (elems.drop (k + 1)) with
          | error s2 =>
              rw [hrest] at hconv
              cases hconv
              have h2 := ih (k + 1) e s ha (by omega) hrest
              simp only [arrayToNativeLoop, hget, hx]
              revert h2
              rcases arrayToNativeLoop c (.obj aid) e (k + 1) n with ⟨e2, r⟩
              intro h2
              have h3 : r = .error s := h2
              subst h3
              rfl
          | ok xs2 => rw [hrest] at hconv; cases hconv

theorem ArrayToNative_len_error (c : SimpleConv α) (e : Env) (v : NValue)
    (s : NStatus) (h : napi_get_array_length e v = .error s) :
    (ArrayToNative c e v).2 = .error s := by
  simp only [ArrayToNative, napi_open_handle_scope]
  have h2 : napi_get_array_length { e with scopes := e.scopes + 1 } v = .error s := h
  rw [h2]

theorem ArrayToNative_elem_error (c : SimpleConv α) (e : Env) (aid : Nat)
    (elems : List NValue) (s : NStatus)
    (ha : e.objs[aid]? = some (.arr elems))
    (hconv : convBackAll c elems = .error s) :
    (ArrayToNative c e (.obj aid)).2 = .error s := by
  have hlen : napi_get_array_length { e with scopes := e.scopes + 1 } (.obj aid) = .ok elems.length := by
    simp only [napi_get_array_length]
    rw [show ({ e with scopes := e.scopes + 1 } : Env).objs = e.objs from rfl, ha]
  have h2 := arrayToNativeLoop_error c aid elems elems.length 0
    { e with scopes := e.scopes + 1 } s ha (by omega)
    (by rw [List.drop_zero]; exact hconv)
  simp only [ArrayToNative, napi_open_handle_scope]
  rw [hlen]
  dsimp only
  revert h2
  rcases arrayToNativeLoop c (.obj aid) { e with scopes := e.scopes + 1 } 0 elems.length with ⟨e2, r⟩
  intro h2
  have h3 : r = .error s := h2
  subst h3
  rfl

/-- C9: for both container conversions, any underlying handle-API or
element-codec failure short-circuits — the function returns that very
status, produces no container value at all for the caller (the caller's
output parameter is only assigned on the success path), and the handle
scope opened on entry is closed again on every path (the final scope
count equals the initial one). -/
theorem C9_container_failure_behaviour :
    (∀ (α : Type) (freeze : Bool) (c : SimpleConv α) (e : Env) (xs : List α),
      ((ArrayToJS freeze c e xs).1).scopes = e.scopes) ∧
    (∀ (α : Type) (c : SimpleConv α) (e : Env) (v : NValue),
      ((ArrayToNative c e v).1).scopes = e.scopes) ∧
    (∀ (α : Type) (freeze : Bool) (c : SimpleConv α) (e : Env)
      (good : List α) (x : α) (rest : List α) (vs : List NValue) (s : NStatus),
      convAll c good = .ok vs → c.toJS x = .error s →
      (ArrayToJS freeze c e (good ++ x :: rest)).2 = .error s) ∧
    (∀ (α : Type) (c : SimpleConv α) (e : Env) (v : NValue) (s : NStatus),
      napi_get_array_length e v = .error s →
      (ArrayToNative c e v).2 = .error s) ∧
    (∀ (α : Type) (c : SimpleConv α) (e : Env) (aid : Nat)
      (elems : List NValue) (s : NStatus),
      e.objs[aid]? = some (.arr elems) → convBackAll c elems = .error s →
      (ArrayToNative c e (.obj aid)).2 = .error s) :=
  ⟨fun _ freeze c e xs => ArrayToJS_scopes freeze c e xs,
   fun _ c e v => ArrayToNative_scopes c e v,
   fun _ freeze c e good x rest vs s h1 h2 =>
     ArrayToJS_error freeze c e good x rest vs s h1 h2,
   fun _ c e v s h => ArrayToNative_len_error c e v s h,
   fun _ c e aid elems s h1 h2 => ArrayToNative_elem_error c e aid elems s h1 h2⟩

/-- An element codec that always fails, for exercising the failure path. -/
def failConv : SimpleConv Nat :=
  ⟨fun _ => .error .generic_failure, fun _ => .error .generic_failure⟩

/-- An environment holding one one-element dynamic array. -/
def env1 : Env := ⟨0, [.arr [.undefined]], [], [], [], none⟩

/-- Witness for `C9_container_failure_behaviour` on concrete failing
conversions. -/
theorem C9_container_failure_behaviour_witness :
    (ArrayToJS false failConv env0 [0]).2 = .error .generic_failure ∧
    ((ArrayToJS false failConv env0 [0]).1).scopes = env0.scopes ∧
    (ArrayToNative failConv env0 .undefined).2 = .error .array_expected ∧
    (ArrayToNative failConv env1 (.obj 0)).2 = .error .generic_failure :=
  ⟨C9_container_failure_behaviour.2.2.1 Nat false failConv env0 [] 0 [] []
      .generic_failure rfl rfl,
   C9_container_failure_behaviour.1 Nat false failConv env0 [0],
   C9_container_failure_behaviour.2.2.2.1 Nat failConv env0 .undefined
      .array_expected rfl,
   C9_container_failure_behaviour.2.2.2.2 Nat failConv env1 0 [.undefined]
      .generic_failure rfl rfl⟩

/-! ## References, unwrapping and the Wrapping Record -/

def napi_create_reference (e : Env) (v : NValue) : Env × Nat :=
  ({ e with refs := e.refs ++ [some v] }, e.refs.length)

def napi_get_reference_value (e : Env) (r : Nat) : Except NStatus NValue :=
  match e.refs[r]? with
  | some (some v) => .ok v
  | _ => .error .invalid_arg

def napi_delete_reference (e : Env) (r : Nat) : Except NStatus Env :=
  match e.refs[r]? with
  | some (some _) => .ok { e with refs := e.refs.set r none }
  | _ => .error .invalid_arg

def napi_unwrap (e : Env) (rcv : NValue) : Except NStatus Wrapping :=
  match rcv with
  | .obj id =>
      match e.objs[id]? with
      | some (.wrapped w) => .ok w
      | _ => .error .invalid_arg
  | _ => .error .invalid_arg

/-- The three out-parameters of `Wrapping<T>::Retrieve`: the owned native
object pointer, the optional same-object cached value (`none` = the
caller's `*ref` was never written), and the record itself. -/
structure RetrieveOut where
  native : Nat
  refOut : Option NValue
  wrapping : Wrapping
deriving Repr

/-- `Wrapping<T>::Retrieve`: unwrap the record; when `ref_idx` names an
in-range, non-empty same-object slot, read the cached reference's value
and (if the caller passed a `ref` out-pointer, `wantRef`) hand it back;
always hand back the owned native pointer and return success. -/
def Wrapping.Retrieve (e : Env) (js_rcv : NValue) (ref_idx : Int)
    (wantRef : Bool) : Except NStatus RetrieveOut :=
  match napi_unwrap e js_rcv with
  | .error s => .error s
  | .ok w =>
      if 0 ≤ ref_idx ∧ ref_idx.toNat < w.refs.length then
        match w.refs.getD ref_idx.toNat none with
        | some r =>
            match napi_get_reference_value e r with
            | .error s => .error s
            | .ok rv => .ok ⟨w.native, if wantRef then some rv else none, w⟩
        | none => .ok ⟨w.native, none, w⟩
      else .ok ⟨w.native, none, w⟩

/-- `Wrapping<T>::SetRef`: create a reference on the cached value and
store it in slot `idx` of the record attached to heap object `objId`. -/
def Wrapping.SetRef (e : Env) (objId : Nat) (w : Wrapping) (idx : Nat)
    (same_obj : NValue) : Env :=
  let created := napi_create_reference e same_obj
  { created.1 with objs := created.1.objs.set objId (.wrapped { w with refs := w.refs.set idx (some created.2) }) }

/-- Reading `cc_rcv->*FieldName` for an object-typed field: the handle
stored in the native object (junk `undefined` if the native is dead —
theorems always assume a live native). -/
def fieldOf (e : Env) (p : Nat) : NValue := (e.natives.getD p none).getD .undefined

/-- `Wrapping<T>::InstanceGetter` at an object-typed field
(`Converter<object>::ToJS` is the identity on the handle): with a
same-object slot id, first consult the cache via `Retrieve`; on a hit
return the cached value, otherwise convert the field, cache it via
`SetRef`, and return it.  Failure paths throw and return `none`
(`nullptr`). -/
def InstanceGetter (e : Env) (objId : Nat) (sameIdx : Int) :
    Env × Option NValue :=
  if 0 ≤ sameIdx then
    match Wrapping.Retrieve e (.obj objId) sameIdx true with
    | .error _ => (e, none)
    | .ok out =>
        match out.refOut with
        | some rv => (e, some rv)
        | none =>
            let result := fieldOf e out.native
            (Wrapping.SetRef e objId out.wrapping sameIdx.toNat result,
              some result)
  else
    match Wrapping.Retrieve e (.obj objId) (-1) false with
    | .error _ => (e, none)
    | .ok out => (e, some (fieldOf e out.native))

/-! ### Behaviour of `Retrieve` and the same-object cache -/

theorem Retrieve_nocache (e : Env) (objId : Nat) (w : Wrapping)
    (ref_idx : Int) (wantRef : Bool)
    (hw : e.objs[objId]? = some (.wrapped w))
    (hmiss : ¬(0 ≤ ref_idx ∧ ref_idx.toNat < w.refs.length ∧
      w.refs.getD ref_idx.toNat none ≠ none)) :
    Wrapping.Retrieve e (.obj objId) ref_idx wantRef =
      .ok ⟨w.native, none, w⟩ := by
  have hu : napi_unwrap e (.obj objId) = .ok w := by
    simp only [napi_unwrap]
    rw [hw]
  simp only [Wrapping.Retrieve, hu]
  by_cases hbound : 0 ≤ ref_idx ∧ ref_idx.toNat < w.refs.length
  · rw [if_pos hbound]
    cases hslot : w.refs.getD ref_idx.toNat none with
    | none => rfl
    | some r =>
        exact absurd ⟨hbound.1, hbound.2, by rw [hslot]; exact fun h => nomatch h⟩ hmiss
  · rw [if_neg hbound]

theorem Retrieve_cached (e : Env) (objId : Nat) (w : Wrapping)
    (ref_idx : Int) (wantRef : Bool) (r : Nat) (rv : NValue)
    (hw : e.objs[objId]? = some (.wrapped w))
    (hnn : 0 ≤ ref_idx) (hlt : ref_idx.toNat < w.refs.length)
    (hslot : w.refs.getD ref_idx.toNat none = some r)
    (hr : e.refs[r]? = some (some rv)) :
    Wrapping.Retrieve e (.obj objId) ref_idx wantRef =
      .ok ⟨w.native, if wantRef then some rv else none, w⟩ := by
  have hu : napi_unwrap e (.obj objId) = .ok w := by
    simp only [napi_unwrap]
    rw [hw]
  have hg : napi_get_reference_value e r = .ok rv := by
    simp only [napi_get_reference_value]
    rw [hr]
  simp only [Wrapping.Retrieve, hu]
  rw [if_pos ⟨hnn, hlt⟩, hslot]
  simp only [hg]

/-- C10: calling `Retrieve` with a negative, out-of-range, or empty slot
index performs no cache lookup and never writes the caller's `ref`, yet
still returns the owned native pointer with success; the slot vector is
only ever read under the in-range guard. -/
theorem C10_retrieve_bad_slot_is_benign (e : Env) (objId : Nat)
    (w : Wrapping) (ref_idx : Int) (wantRef : Bool)
    (hw : e.objs[objId]? = some (.wrapped w))
    (hmiss : ¬(0 ≤ ref_idx ∧ ref_idx.toNat < w.refs.length ∧
      w.refs.getD ref_idx.toNat none ≠ none)) :
    Wrapping.Retrieve e (.obj objId) ref_idx wantRef =
      .ok ⟨w.native, none, w⟩ :=
  Retrieve_nocache e objId w ref_idx wantRef hw hmiss

/-- An environment with two wrapped instances (no same-object slots
populated) over two live native objects. -/
def env2 : Env :=
  ⟨0, [.wrapped ⟨0, [none]⟩, .wrapped ⟨1, [none]⟩], [],
    [some (.obj 7), some (.obj 8)], [], none⟩

/-- Witness for `C10_retrieve_bad_slot_is_benign`: a negative index, an
out-of-range index, and an in-range empty slot. -/
theorem C10_retrieve_bad_slot_is_benign_witness :
    Wrapping.Retrieve env2 (.obj 0) (-1) true = .ok ⟨0, none, ⟨0, [none]⟩⟩ ∧
    Wrapping.Retrieve env2 (.obj 0) 5 true = .ok ⟨0, none, ⟨0, [none]⟩⟩ ∧
    Wrapping.Retrieve env2 (.obj 0) 0 true = .ok ⟨0, none, ⟨0, [none]⟩⟩ :=
  ⟨C10_retrieve_bad_slot_is_benign env2 0 ⟨0, [none]⟩ (-1) true rfl
      (by intro h; exact absurd h.1 (by decide)),
   C10_retrieve_bad_slot_is_benign env2 0 ⟨0, [none]⟩ 5 true rfl
      (by intro h; exact absurd h.2.1 (by decide)),
   C10_retrieve_bad_slot_is_benign env2 0 ⟨0, [none]⟩ 0 true rfl
      (by intro h; exact h.2.2 rfl)⟩

theorem InstanceGetter_first_read (e : Env) (objId : Nat) (w : Wrapping)
    (sameIdx : Int) (f : NValue)
    (hw : e.objs[objId]? = some (.wrapped w))
    (hnn : 0 ≤ sameIdx) (hlt : sameIdx.toNat < w.refs.length)
    (hempty : w.refs.getD sameIdx.toNat none = none)
    (hfield : e.natives.getD w.native none = some f) :
    InstanceGetter e objId sameIdx =
      ({ e with refs := e.refs ++ [some f], objs := e.objs.set objId (.wrapped { w with refs := w.refs.set sameIdx.toNat (some e.refs.length) }) }, some f) := by
  have hret := Retrieve_nocache e objId w sameIdx true hw
    (fun hc => hc.2.2 hempty)
  simp only [InstanceGetter, if_pos hnn, hret]
  simp only [fieldOf, hfield, Option.getD_some]
  simp only [Wrapping.SetRef, napi_create_reference]

theorem InstanceGetter_second_read (e : Env) (objId : Nat) (w : Wrapping)
    (sameIdx : Int) (f : NValue) (r : Nat)
    (hw : e.objs[objId]? = some (.wrapped w))
    (hnn : 0 ≤ sameIdx) (hlt : sameIdx.toNat < w.refs.length)
    (hslot : w.refs.getD sameIdx.toNat none = some r)
    (hr : e.refs[r]? = some (some f)) :
    InstanceGetter e objId sameIdx = (e, some f) := by
  have hret := Retrieve_cached e objId w sameIdx true r f hw hnn hlt hslot hr
  simp only [InstanceGetter, if_pos hnn, hret]
  simp

/-- C4: on a wrapped instance with an empty same-object slot, the first
read converts the native field to a dynamic value, stores a reference to
it in the designated slot, and returns it; any subsequent read on the
resulting state returns the referentially identical value from the slot
with no further state change; and first reads on two distinct wrapped
instances return non-identical values whenever the underlying native
(sub-)objects — the object handles held in the converted fields — differ. -/
theorem C4_same_object_cache (e : Env) (objId objId2 : Nat)
    (w w2 : Wrapping) (sameIdx : Int) (f f2 : NValue)
    (hw : e.objs[objId]? = some (.wrapped w))
    (hnn : 0 ≤ sameIdx) (hlt : sameIdx.toNat < w.refs.length)
    (hempty : w.refs.getD sameIdx.toNat none = none)
    (hfield : e.natives.getD w.native none = some f)
    (hw2 : e.objs[objId2]? = some (.wrapped w2))
    (hlt2 : sameIdx.toNat < w2.refs.length)
    (hempty2 : w2.refs.getD sameIdx.toNat none = none)
    (hfield2 : e.natives.getD w2.native none = some f2)
    (hne : f ≠ f2) :
    (∃ e', InstanceGetter e objId sameIdx = (e', some f) ∧
      e'.objs[objId]? = some (.wrapped { w with refs := w.refs.set sameIdx.toNat (some e.refs.length) }) ∧
      e'.refs[e.refs.length]? = some (some f) ∧
      InstanceGetter e' objId sameIdx = (e', some f)) ∧
    (InstanceGetter e objId sameIdx).2 = some f ∧
    (InstanceGetter e objId2 sameIdx).2 = some f2 ∧
    (InstanceGetter e objId sameIdx).2 ≠ (InstanceGetter e objId2 sameIdx).2 := by
  have h1 := InstanceGetter_first_read e objId w sameIdx f hw hnn hlt hempty hfield
  have h12 := InstanceGetter_first_read e objId2 w2 sameIdx f2 hw2 hnn hlt2 hempty2 hfield2
  refine ⟨⟨_, h1, ?_, ?_, ?_⟩, ?_, ?_, ?_⟩
  · exact getElem?_set_of_getElem? _ _ _ _ hw
  · exact List.getElem?_concat_length _ _
  · refine InstanceGetter_second_read _ objId
      { w with refs := w.refs.set sameIdx.toNat (some e.refs.length) }
      sameIdx f e.refs.length (getElem?_set_of_getElem? _ _ _ _ hw) hnn
      (by simpa using hlt) ?_ (List.getElem?_concat_length _ _)
    show (w.refs.set sameIdx.toNat (some e.refs.length)).getD sameIdx.toNat none = some e.refs.length
    rw [List.getD_eq_getElem?_getD,
      getElem?_set_of_getElem? _ _ _ _ (List.getElem?_eq_getElem hlt)]
    rfl
  · rw [h1]
  · rw [h12]
  · rw [h1, h12]
    simp [hne]

/-- Witness for `C4_same_object_cache`: two wrapped instances over
distinct native objects whose object-typed fields hold distinct handles. -/
theorem C4_same_object_cache_witness :
    (∃ e', InstanceGetter env2 0 0 = (e', some (.obj 7)) ∧
      e'.objs[(0 : Nat)]? = some (.wrapped { native := 0, refs := [some 0] }) ∧
      e'.refs[(0 : Nat)]? = some (some (.obj 7)) ∧
      InstanceGetter e' 0 0 = (e', some (.obj 7))) ∧
    (InstanceGetter env2 0 0).2 = some (.obj 7) ∧
    (InstanceGetter env2 1 0).2 = some (.obj 8) ∧
    (InstanceGetter env2 0 0).2 ≠ (InstanceGetter env2 1 0).2 :=
  C4_same_object_cache env2 0 1 ⟨0, [none]⟩ ⟨1, [none]⟩ 0 (.obj 7) (.obj 8)
    rfl (by decide) (by decide) rfl rfl rfl (by decide) rfl rfl (by decide)

/-! ## `Wrapping<T>::Destroy` — destruction ordering -/

/-- Observable destruction events, for stating the ordering and
exactly-once properties of the finalizer. -/
inductive DEvent where
  | releaseRef (r : Nat)
  | deleteNative (p : Nat)
  | deleteRecord
deriving DecidableEq, Repr

/-- The slot-release loop of `Destroy`: delete every non-empty slot
reference in order; a failing `napi_delete_reference` makes the finalizer
return immediately (`NAPI_CALL_RETURN_VOID`), reported as `false`. -/
def destroyLoop : Env → List (Option Nat) → Env × List DEvent × Bool
  | e, [] => (e, [], true)
  | e, none :: rest => destroyLoop e rest
  | e, some r :: rest =>
      match napi_delete_reference e r with
      | .error _ => ({ e with pendingExc := some "napi_delete_reference" }, [], false)
      | .ok e2 =>
          match destroyLoop e2 rest with
          | (e3, evs, done) => (e3, .releaseRef r :: evs, done)

/-- `Wrapping<T>::Destroy`: release every non-empty same-object slot
reference, then `delete` the owned native object, then `delete` the
record itself. -/
def Wrapping.Destroy (e : Env) (w : Wrapping) : Env × List DEvent :=
  match destroyLoop e w.refs with
  | (e2, evs, false) => (e2, evs)
  | (e2, evs, true) =>
      ({ e2 with natives := e2.natives.set w.native none },
        evs ++ [.deleteNative w.native, .deleteRecord])

theorem destroyLoop_ok (slots : List (Option Nat)) :
    ∀ e : Env,
      (∀ rr ∈ slots.filterMap id, (e.refs.getD rr none).isSome) →
      (slots.filterMap id).Nodup →
      ∃ e2, destroyLoop e slots =
          (e2, (slots.filterMap id).map DEvent.releaseRef, true) ∧
        (∀ rr ∈ slots.filterMap id, e2.refs.getD rr none = none) ∧
        (∀ i, e.refs.getD i none = none → e2.refs.getD i none = none) ∧
        e2.natives = e.natives ∧ e2.objs = e.objs ∧ e2.scopes = e.scopes := by
  induction slots with
  | nil =>
      intro e _ _
      exact ⟨e, rfl, by simp, fun i h => h, rfl, rfl, rfl⟩
  | cons slot rest ih =>
      intro e hval hnd
      cases slot with
      | none =>
          simp only [List.filterMap_cons, id] at hval hnd ⊢
          exact ih e hval hnd
      | some r =>
          simp only [List.filterMap_cons, id] at hval hnd ⊢
          have hvr := hval r (List.mem_cons_self r _)
          have hrq : ∃ v, e.refs[r]? = some (some v) := by
            rw [List.getD_eq_getElem?_getD] at hvr
            cases hq : e.refs[r]? with
            | none => rw [hq] at hvr; simp at hvr
            | some o =>
                cases o with
                | none => rw [hq] at hvr; simp at hvr
                | some v => exact ⟨v, rfl⟩
          obtain ⟨v, hq⟩ := hrq
          have hdel : napi_delete_reference e r = .ok { e with refs := e.refs.set r none } := by
            simp only [napi_delete_reference]
            rw [hq]
          have hval2 : ∀ rr ∈ rest.filterMap id,
              (({ e with refs := e.refs.set r none } : Env).refs.getD rr none).isSome := by
            intro rr hrr
            have hne : rr ≠ r := fun hc => (List.nodup_cons.mp hnd).1 (hc ▸ hrr)
            have := hval rr (List.mem_cons_of_mem r hrr)
            rw [List.getD_eq_getElem?_getD] at this ⊢
            rw [show (({ e with refs := e.refs.set r none } : Env).refs) = e.refs.set r none from rfl,
              List.getElem?_set_ne (fun hc => hne hc.symm)]
            exact this
          obtain ⟨e2, heq, hrel, hmono, hnat, hobjs, hscopes⟩ :=
            ih { e with refs := e.refs.set r none } hval2 (List.nodup_cons.mp hnd).2
          refine ⟨e2, ?_, ?_, ?_, hnat, hobjs, hscopes⟩
          · simp only [destroyLoop, hdel, heq, List.map_cons]
          · intro rr hrr
            rcases List.mem_cons.mp hrr with hc | hc
            · rw [hc]
              apply hmono
              rw [List.getD_eq_getElem?_getD]
              rw [show (({ e with refs := e.refs.set r none } : Env).refs) = e.refs.set r none from rfl,
                getElem?_set_of_getElem? _ _ _ _ hq]
              rfl
            · exact hrel rr hc
          · intro i hi
            apply hmono
            rw [List.getD_eq_getElem?_getD] at hi ⊢
            rw [show (({ e with refs := e.refs.set r none } : Env).refs) = e.refs.set r none from rfl]
            by_cases hir : i = r
            · rw [hir, getElem?_set_of_getElem? _ _ _ _ hq]
              rfl
            · rw [List.getElem?_set_ne (fun hc => hir hc.symm)]
              exact hi

/-- C6: destroying a Wrapping Record releases every non-empty same-object
slot reference (in slot order) strictly before deleting the owned native
object, then deletes the record itself; the native object is deleted
exactly once in the produced event trace, and afterwards every released
reference slot is empty and the native heap entry is gone. -/
theorem C6_wrapping_destroy (e : Env) (w : Wrapping)
    (hval : ∀ rr ∈ w.refs.filterMap id, (e.refs.getD rr none).isSome)
    (hnd : (w.refs.filterMap id).Nodup) :
    ∃ e2, Wrapping.Destroy e w =
        (e2, (w.refs.filterMap id).map DEvent.releaseRef ++
          [DEvent.deleteNative w.native, DEvent.deleteRecord]) ∧
      (∀ rr ∈ w.refs.filterMap id, e2.refs.getD rr none = none) ∧
      e2.natives = e.natives.set w.native none ∧
      ((w.refs.filterMap id).map DEvent.releaseRef ++
        [DEvent.deleteNative w.native, DEvent.deleteRecord]).count
          (DEvent.deleteNative w.native) = 1 := by
  obtain ⟨e2, heq, hrel, _, hnat, _, _⟩ := destroyLoop_ok w.refs e hval hnd
  refine ⟨{ e2 with natives := e2.natives.set w.native none }, ?_, hrel,
    by rw [hnat], ?_⟩
  · simp only [Wrapping.Destroy, heq]
  · have h0 : ((w.refs.filterMap id).map DEvent.releaseRef).count
        (DEvent.deleteNative w.native) = 0 := by
      rw [List.count_eq_zero]
      intro hmem
      obtain ⟨r, _, hr⟩ := List.mem_map.mp hmem
      cases hr
    rw [List.count_append, h0]
    simp

/-- An environment with two live references and one live native object. -/
def env3 : Env := ⟨0, [], [some .undefined, some .nullv], [some .undefined], [], none⟩

/-- A record with two populated slots and one empty slot. -/
def w3 : Wrapping := ⟨0, [some 0, none, some 1]⟩

/-- Witness for `C6_wrapping_destroy` on a concrete record. -/
theorem C6_wrapping_destroy_witness :
    ∃ e2, Wrapping.Destroy env3 w3 =
        (e2, (w3.refs.filterMap id).map DEvent.releaseRef ++
          [DEvent.deleteNative w3.native, DEvent.deleteRecord]) ∧
      (∀ rr ∈ w3.refs.filterMap id, e2.refs.getD rr none = none) ∧
      e2.natives = env3.natives.set w3.native none ∧
      ((w3.refs.filterMap id).map DEvent.releaseRef ++
        [DEvent.deleteNative w3.native, DEvent.deleteRecord]).count
          (DEvent.deleteNative w3.native) = 1 :=
  C6_wrapping_destroy env3 w3 (by decide) (by decide)

/-! ## The Promise bridge

`Promise<T>`'s members are declared in the project header; modelled from
the spec: "Promise State: tri-state {Pending, Resolved(payload),
Rejected}. Owns at most one deferred-value handle and one realized dynamic
future-value handle, created lazily" (§3).  The `env : Bool` field records
whether the nullable `napi_env` member has been associated. -/

inductive PState where
  | kPending
  | kResolved
  | kRejected
deriving DecidableEq, Repr

structure PromiseM (α : Type) where
  state : PState
  resolution : α
  env : Bool
  deferred : Option Nat
  promise : Option Nat
deriving Repr

def napi_create_promise (e : Env) : Env × Nat :=
  ({ e with deferreds := e.deferreds ++ [.unsettled] }, e.deferreds.length)

def napi_resolve_deferred (e : Env) (d : Nat) (v : NValue) :
    Except NStatus Env :=
  match e.deferreds[d]? with
  | some .unsettled =>
      .ok { e with deferreds := e.deferreds.set d (.resolvedWith v) }
  | _ => .error .invalid_arg

def napi_reject_deferred (e : Env) (d : Nat) (v : NValue) :
    Except NStatus Env :=
  match e.deferreds[d]? with
  | some .unsettled =>
      .ok { e with deferreds := e.deferreds.set d (.rejectedWith v) }
  | _ => .error .invalid_arg

/-- `napi_create_error` (the "Promise rejected" error object): a fresh
plain heap object. -/
def napi_create_error (e : Env) : Env × NValue :=
  ({ e with objs := e.objs ++ [.plain] }, .obj e.objs.length)

/-- The settle phase of `Promise<T>::Conclude(napi_env)` once the deferred
pair exists: convert and resolve on `kResolved`, build the fixed error
and reject on `kRejected`, do nothing further while `kPending`; a failing
step throws (`NAPI_CALL`-style) without touching the promise record. -/
def PromiseM.ConcludeCore (c : SimpleConv α) (e1 : Env) (p1 : PromiseM α)
    (d : Nat) : Env × PromiseM α :=
  match p1.state with
  | .kPending => (e1, p1)
  | .kResolved =>
      match c.toJS p1.resolution with
      | .error _ => ({ e1 with pendingExc := some "Conclude" }, p1)
      | .ok js =>
          match napi_resolve_deferred e1 d js with
          | .error _ => ({ e1 with pendingExc := some "Conclude" }, p1)
          | .ok e2 => (e2, p1)
  | .kRejected =>
      match napi_reject_deferred (napi_create_error e1).1 d
          (napi_create_error e1).2 with
      | .error _ => ({ (napi_create_error e1).1 with pendingExc := some "Conclude" }, p1)
      | .ok e2 => (e2, p1)

/-- `Promise<T>::Conclude()` / `Conclude(napi_env)`: only acts once an
execution context has been associated; lazily creates the deferred/promise
pair, then settles it according to the state. -/
def PromiseM.Conclude (c : SimpleConv α) (e : Env) (p : PromiseM α) :
    Env × PromiseM α :=
  if p.env then
    match p.deferred with
    | none =>
        let created := napi_create_promise e
        PromiseM.ConcludeCore c created.1
          { p with deferred := some created.2, promise := some created.2 }
          created.2
    | some d => PromiseM.ConcludeCore c e p d
  else (e, p)

/-- `Promise<T>::Resolve`: a no-op unless the state is `kPending`;
otherwise store the payload, move to `kResolved`, and conclude. -/
def PromiseM.Resolve (c : SimpleConv α) (e : Env) (p : PromiseM α)
    (result : α) : Env × PromiseM α :=
  if p.state ≠ .kPending then (e, p)
  else PromiseM.Conclude c e { p with resolution := result, state := .kResolved }

/-- `Promise<T>::Reject`: a no-op unless the state is `kPending`;
otherwise move to `kRejected` and conclude. -/
def PromiseM.Reject (c : SimpleConv α) (e : Env) (p : PromiseM α) :
    Env × PromiseM α :=
  if p.state ≠ .kPending then (e, p)
  else PromiseM.Conclude c e { p with state := .kRejected }

theorem ConcludeCore_preserves (c : SimpleConv α) (e1 : Env)
    (p1 : PromiseM α) (d : Nat) :
    (PromiseM.ConcludeCore c e1 p1 d).2 = p1 := by
  unfold PromiseM.ConcludeCore
  split
  · rfl
  · split
    · rfl
    · split <;> rfl
  · split <;> rfl

theorem Conclude_preserves (c : SimpleConv α) (e : Env) (q : PromiseM α) :
    ((PromiseM.Conclude c e q).2).state = q.state ∧
    ((PromiseM.Conclude c e q).2).resolution = q.resolution := by
  unfold PromiseM.Conclude
  split
  · split
    · rw [ConcludeCore_preserves]
      exact ⟨rfl, rfl⟩
    · rw [ConcludeCore_preserves]
      exact ⟨rfl, rfl⟩
  · exact ⟨rfl, rfl⟩

/-- C5: the first transition out of `kPending` is terminal — from a
pending promise, `Resolve` stores the payload and moves to `kResolved`
and `Reject` moves to `kRejected`; on a promise that is no longer
pending, both calls are complete no-ops leaving the environment, the
state, the stored payload, and the deferred/future handles untouched. -/
theorem C5_promise_terminal_state (c : SimpleConv α) (e : Env)
    (p : PromiseM α) (x : α) :
    (p.state = .kPending →
      ((PromiseM.Resolve c e p x).2).state = .kResolved ∧
      ((PromiseM.Resolve c e p x).2).resolution = x ∧
      ((PromiseM.Reject c e p).2).state = .kRejected) ∧
    (p.state ≠ .kPending →
      PromiseM.Resolve c e p x = (e, p) ∧
      PromiseM.Reject c e p = (e, p)) := by
  constructor
  · intro hp
    have h1 := Conclude_preserves c e
      { p with resolution := x, state := .kResolved }
    have h2 := Conclude_preserves c e { p with state := .kRejected }
    refine ⟨?_, ?_, ?_⟩
    · rw [PromiseM.Resolve, if_neg (by rw [hp]; simp)]
      exact h1.1
    · rw [PromiseM.Resolve, if_neg (by rw [hp]; simp)]
      exact h1.2
    · rw [PromiseM.Reject, if_neg (by rw [hp]; simp)]
      exact h2.1
  · intro hp
    constructor
    · rw [PromiseM.Resolve, if_pos hp]
    · rw [PromiseM.Reject, if_pos hp]

/-- An already-resolved promise and a still-pending one, over `Nat`. -/
def pResolved : PromiseM Nat := ⟨.kResolved, 5, false, none, none⟩

def pPending : PromiseM Nat := ⟨.kPending, 0, false, none, none⟩

/-- The `Converter<uint32_t>` pair as the payload codec. -/
def u32Conv : SimpleConv Nat :=
  ⟨fun x => .ok (Converter.uint32.ToJS x), Converter.uint32.ToNative⟩

/-- Witness for `C5_promise_terminal_state`: later calls on a settled
promise change nothing; a pending promise transitions. -/
theorem C5_promise_terminal_state_witness :
    (PromiseM.Resolve u32Conv env0 pResolved 9 = (env0, pResolved) ∧
      PromiseM.Reject u32Conv env0 pResolved = (env0, pResolved)) ∧
    ((PromiseM.Resolve u32Conv env0 pPending 9).2).state = .kResolved :=
  ⟨(C5_promise_terminal_state u32Conv env0 pResolved 9).2 (by decide),
   ((C5_promise_terminal_state u32Conv env0 pPending 9).1 rfl).1⟩

/-! ## `IsConstructCall` -/

/-- The error message built by `IsConstructCall`, naming the interface. -/
def constructErrMsg (ifname : String) : String :=
  "Non-construct calls to the `" ++ ifname ++
    "` constructor are not supported."

def napi_throw_error (e : Env) (msg : String) : Env :=
  { e with pendingExc := some msg }

/-- `IsConstructCall`: query new-target (`none` models a null
`new_target`); when absent, throw the descriptive error and report
`false`; when present report `true` without throwing; the handle-API
status is `napi_ok` either way. -/
def IsConstructCall (e : Env) (new_target : Option NValue)
    (ifname : String) : Env × Except NStatus Bool :=
  match new_target with
  | some _ => (e, .ok true)
  | none => (napi_throw_error e (constructErrMsg ifname), .ok false)

/-- C8: invoking a constructor without the construct protocol (new-target
absent) throws a descriptive error that names the interface and reports
`false` into the result out-parameter (so the generated caller stops
before attaching a Wrapping Record); with new-target present it reports
`true` and leaves the environment — including any pending exception —
untouched. -/
theorem C8_construct_call_guard (e : Env) (ifname : String) :
    (∀ v, IsConstructCall e (some v) ifname = (e, .ok true)) ∧
    IsConstructCall e none ifname =
      ({ e with pendingExc := some (constructErrMsg ifname) }, .ok false) ∧
    (∃ pre post, constructErrMsg ifname = pre ++ ifname ++ post) := by
  refine ⟨fun v => rfl, rfl,
    "Non-construct calls to the `", "` constructor are not supported.", ?_⟩
  simp [constructErrMsg, String.append_assoc]

/-! ## `ExposedPartialProperty` (Plain variant)

The record is one native-typed backing value per destination prototype
(§3). -/

structure ExposedPartialProperty (α : Type) where
  value : α
deriving Repr

/-- `ExposedPartialProperty<T>::Getter` as written in the source
(lines 652-666): it fetches `raw_data` from the callback info but then
initializes the local `data` from *itself* —
`ExposedPartialProperty<T>* data = static_cast<ExposedPartialProperty<T>*>(data);`
— an uninitialized read, so the record actually consulted is whatever
indeterminate pointer value the local holds, modelled by `junk`;
`raw_data` (the true property record) is never used. -/
def ExposedPartialProperty.Getter (c : SimpleConv α)
    (raw_data : ExposedPartialProperty α)
    (junk : Option (ExposedPartialProperty α)) : Option NValue :=
  match junk with
  | none => none
  | some d =>
      match c.toJS d.value with
      | .error _ => none
      | .ok v => some v

/-- `ExposedPartialProperty<T>::Setter` as written in the source
(lines 668-682): same self-initialized `data` bug; the converted new
value is written through the indeterminate pointer (`junk`), never into
the true record (`raw_data`), which is returned unchanged. -/
def ExposedPartialProperty.Setter (c : SimpleConv α)
    (raw_data : ExposedPartialProperty α)
    (junk : Option (ExposedPartialProperty α)) (new_value : NValue) :
    ExposedPartialProperty α × Option (ExposedPartialProperty α) :=
  (raw_data,
    match junk with
    | none => none
    | some d =>
        match c.toNative new_value with
        | .error _ => some d
        | .ok x => some { d with value := x })

/-- C7 (code bug): a Plain exposed partial property read never consults
the property record's stored backing value — the getter's output is
invariant under arbitrary changes to the record — and a write never
changes the record, so a read cannot observe the most recent write.  The
claim describes the evident intent (mirrored correctly by the same-object
variant, which uses `raw_data`); the code's self-initialization of `data`
is the slip. -/
theorem C7_plain_property_ignores_record :
    (∀ (α : Type) (c : SimpleConv α)
      (r1 r2 : ExposedPartialProperty α)
      (junk : Option (ExposedPartialProperty α)),
      ExposedPartialProperty.Getter c r1 junk =
        ExposedPartialProperty.Getter c r2 junk) ∧
    (∀ (α : Type) (c : SimpleConv α) (r : ExposedPartialProperty α)
      (junk : Option (ExposedPartialProperty α)) (v : NValue),
      (ExposedPartialProperty.Setter c r junk v).1 = r) :=
  ⟨fun _ _ _ _ _ => rfl, fun _ _ _ _ _ => rfl⟩
